import Mathlib

/-!
Shallow embedding of the streaming sparkline renderer of `sot`
(`BrailleStream` / `BlockCharStream`).  The renderer implementation itself
is not shipped under `src/` (only its behavioural tests in
`src/tests/test_streams.py` are), so the definitions below are modelled
from the specification and validated, step by step, against the literal
grids asserted by those tests.
-/

namespace Sot

/-- The two glyph modes of the renderer. -/
inductive Mode
  | braille
  | block
deriving DecidableEq, Repr

/-- Modelled from the spec: vertical dot resolution of one character row
(`resolutionPerRow` = 4 for braille, 8 for block). -/
def resolutionPerRow : Mode → ℕ
  | Mode.braille => 4
  | Mode.block => 8

/-- Stream configuration: geometry, value range, orientation and mode. -/
structure Config where
  width : ℕ
  height : ℕ
  vmin : ℚ
  vmax : ℚ
  flipud : Bool
  mode : Mode
deriving DecidableEq, Repr

/-- Modelled from the spec: buffer capacity is `2*width` for braille
(two samples per character cell) and `width` for block mode. -/
def capacity (c : Config) : ℕ :=
  match c.mode with
  | Mode.braille => 2 * c.width
  | Mode.block => c.width

/-- Modelled from the spec: `maxLevel = resolutionPerRow × height`. -/
def maxLevel (c : Config) : ℕ := resolutionPerRow c.mode * c.height

/-- A float64 sample value: finite values are modelled as rationals,
and the non-finite values NaN and ±infinity are explicit constructors. -/
inductive FVal
  | finite (q : ℚ)
  | nan
  | posInf
  | negInf
deriving DecidableEq, Repr

/-- Modelled from the spec: non-finite sample values are clamped to the
nearest range bound before quantization (+∞ ↦ vmax, −∞ ↦ vmin, and NaN,
having no nearest bound, ↦ vmin); finite values pass through (the
quantizer clamps them itself). -/
def toFinite (c : Config) : FVal → ℚ
  | FVal.finite q => q
  | FVal.nan => c.vmin
  | FVal.posInf => c.vmax
  | FVal.negInf => c.vmin

/-- Clamp a rational into `[lo, hi]`. -/
def clampQ (lo hi x : ℚ) : ℚ := max lo (min hi x)

/-- Ceiling of the integer fraction `p / q` (for `q > 0`). -/
def ceilDiv (p q : ℤ) : ℤ := -(-p / q)

/-- Modelled from the spec (§4.1): ceiling quantization,
`level = ceil((clamp(value, vmin, vmax) − vmin) / (vmax − vmin) × maxLevel)`,
computed on the numerators and denominators of the rationals involved
(`quantize_eq_specLevel` below proves this equal to the spec's formula;
the integer form exists so that the kernel can evaluate it). -/
def quantize (c : Config) (x : ℚ) : ℕ :=
  let y := clampQ c.vmin c.vmax x
  let aN : ℤ := y.num * c.vmin.den - c.vmin.num * y.den
  let bN : ℤ := c.vmax.num * c.vmin.den - c.vmin.num * c.vmax.den
  (ceilDiv (aN * (maxLevel c : ℤ) * ((c.vmax.den : ℤ) * (c.vmin.den : ℤ)))
    (((y.den : ℤ) * (c.vmin.den : ℤ)) * bN)).toNat

/-- The spec's §4.1 quantizer, verbatim:
`level = ceil((clamp(value, vmin, vmax) − vmin) / (vmax − vmin) × maxLevel)`. -/
def specLevel (c : Config) (x : ℚ) : ℕ :=
  (⌈(clampQ c.vmin c.vmax x - c.vmin) / (c.vmax - c.vmin) * (maxLevel c : ℚ)⌉).toNat

/-- Quantized level of an arbitrary float64 sample. -/
def levelOf (c : Config) (v : FVal) : ℕ := quantize c (toFinite c v)

/-- Stream state: the configuration plus the FIFO level buffer
(oldest level first). -/
structure Stream where
  cfg : Config
  values : List ℕ
deriving DecidableEq, Repr

/-- Modelled from the spec (§4.2): append the new level; once the buffer
exceeds capacity, drop the oldest entry. -/
def push (cap : ℕ) (buf : List ℕ) (x : ℕ) : List ℕ :=
  let grown := buf ++ [x]
  if cap < grown.length then grown.tail else grown

/-- `addValue`: quantize the sample and push its level into the buffer. -/
def addValue (s : Stream) (v : FVal) : Stream :=
  { s with values := push (capacity s.cfg) s.values (levelOf s.cfg v) }

/-- Run a whole input sequence through `addValue`. -/
def runAdds (s : Stream) (vs : List FVal) : Stream := vs.foldl addValue s

/-- The rendered window: `capacity` slots, the unpopulated leading
positions (`none`) followed by the buffered levels, oldest first. -/
def window (s : Stream) : List (Option ℕ) :=
  List.replicate (capacity s.cfg - s.values.length) none ++ s.values.map some

/-- Modelled from the spec (§4.3/§4.4 multi-row distribution): the part of a
total level `L` shown on character row `r` counted from the bottom — rows
below the remainder row are fully lit, the remainder row shows
`L mod resolutionPerRow`, rows above are blank.  An unpopulated slot shows
nothing on any row. -/
def subLevel (res r : ℕ) : Option ℕ → ℕ
  | none => 0
  | some L => min res (L - res * r)

/-- Dot bit values of the left braille column, bottom slot first
(dots 7, 3, 2, 1). -/
def leftSlots : List ℕ := [64, 4, 2, 1]

/-- Dot bit values of the right braille column, bottom slot first
(dots 8, 6, 5, 4). -/
def rightSlots : List ℕ := [128, 32, 16, 8]

/-- Bottom-up fill: a column at level `L` lights the lowest `L` of its
4 slots.  With `flipud` the slot order is reversed, so the same level
lights the top `L` slots instead. -/
def fillBits (slots : List ℕ) (L : ℕ) : ℕ := (slots.take L).sum

/-- One braille character cell from its left and right sub-column levels.
A cell with both levels 0 renders as a plain space. -/
def brailleGlyph (flip : Bool) (l r : ℕ) : Char :=
  if l = 0 ∧ r = 0 then ' '
  else Char.ofNat (0x2800 +
    fillBits (if flip then leftSlots.reverse else leftSlots) l +
    fillBits (if flip then rightSlots.reverse else rightSlots) r)

/-- Modelled from the spec (§4.4): the 9-entry block ramp
`" ▁▂▃▄▅▆▇█"`, index = level, 0 = blank, 8 = full block. -/
def blockGlyph (L : ℕ) : Char :=
  if L = 0 then ' ' else Char.ofNat (0x2580 + min 8 L)

/-- The two sub-column levels of braille cell `i` on logical row `r`
(counted from the bottom): the cell packs window samples `2i` (left) and
`2i+1` (right). -/
def cellLevels (s : Stream) (r i : ℕ) : ℕ × ℕ :=
  (subLevel 4 r ((window s).getD (2 * i) none),
   subLevel 4 r ((window s).getD (2 * i + 1) none))

/-- The characters of displayed row `j` (`j = 0` is the top row).  Without
`flipud`, displayed row `j` shows logical row `height−1−j`; with `flipud`
the row order is reversed so it shows logical row `j`, and the in-cell
fill direction is inverted. -/
def rowChars (s : Stream) (j : ℕ) : List Char :=
  match s.cfg.mode with
  | Mode.braille =>
      (List.range s.cfg.width).map fun i =>
        let r := if s.cfg.flipud then j else s.cfg.height - 1 - j
        brailleGlyph s.cfg.flipud (cellLevels s r i).1 (cellLevels s r i).2
  | Mode.block =>
      (List.range s.cfg.width).map fun i =>
        let r := s.cfg.height - 1 - j
        blockGlyph (subLevel 8 r ((window s).getD i none))

/-- `graph`: the current render snapshot, `height` strings of `width`
characters, top row first. -/
def graph (s : Stream) : List String :=
  (List.range s.cfg.height).map fun j => String.mk (rowChars s j)

/-- The construction-time failure of the spec's error taxonomy. -/
inductive ConfigurationError
  | invalid
deriving DecidableEq, Repr

/-- Modelled from the spec (§6): `new` fails with `ConfigurationError`
iff `width ≤ 0 ∨ height ≤ 0 ∨ vmin ≥ vmax`; otherwise the stream starts
with an empty level buffer. -/
def new (width height : ℤ) (vmin vmax : ℚ) (flipud : Bool) (mode : Mode) :
    Except ConfigurationError Stream :=
  if width ≤ 0 ∨ height ≤ 0 ∨ vmin ≥ vmax then
    Except.error ConfigurationError.invalid
  else
    Except.ok ⟨⟨width.toNat, height.toNat, vmin, vmax, flipud, mode⟩, []⟩

/-- The braille test streams: `sot.BrailleStream(w, h, vmin, vmax, flipud)`. -/
def brailleStream (w h : ℕ) (vmin vmax : ℚ) (flip : Bool) : Stream :=
  ⟨⟨w, h, vmin, vmax, flip, Mode.braille⟩, []⟩

/-- The block test streams: `sot.BlockCharStream(w, h, vmin, vmax)`
(the block constructor of the tests takes no `flipud`). -/
def blockStream (w h : ℕ) (vmin vmax : ℚ) : Stream :=
  ⟨⟨w, h, vmin, vmax, false, Mode.block⟩, []⟩

/-- Number of non-blank characters in the rendered grid. -/
def nonBlankCount (s : Stream) : ℕ :=
  ((graph s).map fun row => row.data.countP fun ch => ch ≠ ' ').sum

/-- Character at displayed row `j`, column `i` of a rendered grid. -/
def charAt (g : List String) (j i : ℕ) : Char := ((g.getD j "").data).getD i ' '

/-! ### Basic buffer lemmas -/

theorem addValue_cfg (s : Stream) (v : FVal) : (addValue s v).cfg = s.cfg := rfl

theorem runAdds_cfg (vs : List FVal) (s : Stream) : (runAdds s vs).cfg = s.cfg := by
  induction vs generalizing s with
  | nil => rfl
  | cons v vs ih => simpa [runAdds, List.foldl_cons] using ih (addValue s v)

theorem push_eq_drop (cap : ℕ) (buf : List ℕ) (x : ℕ) (h : buf.length ≤ cap) :
    push cap buf x = (buf ++ [x]).drop (buf.length + 1 - cap) := by
  unfold push
  by_cases hlt : cap < (buf ++ [x]).length
  · simp only [hlt, if_true]
    have hcap : cap = buf.length := by
      simp only [List.length_append, List.length_singleton] at hlt
      omega
    have : buf.length + 1 - cap = 1 := by omega
    rw [this, ← List.drop_one]
  · simp only [hlt, if_false]
    have : buf.length + 1 - cap = 0 := by
      simp only [List.length_append, List.length_singleton] at hlt
      omega
    rw [this, List.drop_zero]

theorem push_length (cap : ℕ) (buf : List ℕ) (x : ℕ) (h : buf.length ≤ cap) :
    (push cap buf x).length = min (buf.length + 1) cap := by
  rw [push_eq_drop cap buf x h, List.length_drop]
  simp only [List.length_append, List.length_singleton]
  omega

theorem runAdds_values (vs : List FVal) (s : Stream)
    (h : s.values.length ≤ capacity s.cfg) :
    (runAdds s vs).values =
      (s.values ++ vs.map (levelOf s.cfg)).drop
        (s.values.length + vs.length - capacity s.cfg) := by
  induction vs generalizing s with
  | nil =>
      simp only [runAdds, List.foldl_nil, List.map_nil, List.append_nil, List.length_nil,
        Nat.add_zero]
      rw [Nat.sub_eq_zero_of_le h, List.drop_zero]
  | cons v vs ih =>
      have hval : (addValue s v).values =
          push (capacity s.cfg) s.values (levelOf s.cfg v) := rfl
      have hstep : runAdds s (v :: vs) = runAdds (addValue s v) vs := rfl
      have hlenpush :
          (push (capacity s.cfg) s.values (levelOf s.cfg v)).length ≤ capacity s.cfg := by
        rw [push_length _ _ _ h]
        omega
      rw [hstep, ih (addValue s v) (by rw [hval, addValue_cfg]; exact hlenpush)]
      rw [addValue_cfg, hval, push_length _ _ _ h, push_eq_drop _ _ _ h]
      rw [List.drop_append_eq_append_drop, List.drop_drop, List.length_drop]
      have hassoc : s.values ++ List.map (levelOf s.cfg) (v :: vs) =
          (s.values ++ [levelOf s.cfg v]) ++ vs.map (levelOf s.cfg) := by
        simp
      rw [hassoc, List.drop_append_eq_append_drop, List.drop_append_eq_append_drop,
        List.drop_append_eq_append_drop]
      simp only [List.length_append, List.length_singleton, List.length_cons,
        List.length_drop]
      congr 1
      · congr 1
        · congr 1
          omega
        · congr 1
          omega
      · congr 1
        omega

theorem runAdds_values_length (vs : List FVal) (s : Stream)
    (h : s.values.length ≤ capacity s.cfg) :
    (runAdds s vs).values.length =
      min (s.values.length + vs.length) (capacity s.cfg) := by
  rw [runAdds_values vs s h, List.length_drop]
  simp only [List.length_append, List.length_map]
  omega

theorem values_length_le (vs : List FVal) (s : Stream)
    (h : s.values.length ≤ capacity s.cfg) :
    (runAdds s vs).values.length ≤ capacity s.cfg := by
  rw [runAdds_values_length vs s h]
  omega

/-! ### Window lemmas -/

theorem window_length (s : Stream) (h : s.values.length ≤ capacity s.cfg) :
    (window s).length = capacity s.cfg := by
  simp only [window, List.length_append, List.length_replicate, List.length_map]
  omega

theorem window_getD_pad (s : Stream) (i : ℕ)
    (hi : i < capacity s.cfg - s.values.length) :
    (window s).getD i none = none := by
  unfold window
  rw [List.getD_eq_getElem?_getD, List.getElem?_append_left (by simpa using hi),
    List.getElem?_replicate]
  simp [hi]

theorem window_addValue (s : Stream) (v : FVal)
    (hcap : 1 ≤ capacity s.cfg) (h : s.values.length ≤ capacity s.cfg) :
    window (addValue s v) = (window s).tail ++ [some (levelOf s.cfg v)] := by
  have hv : (addValue s v).values = push (capacity s.cfg) s.values (levelOf s.cfg v) := rfl
  by_cases hfull : s.values.length = capacity s.cfg
  · have hne : s.values ≠ [] := by
      intro hnil
      rw [hnil] at hfull
      simp at hfull
      omega
    have hpush : push (capacity s.cfg) s.values (levelOf s.cfg v) =
        s.values.tail ++ [levelOf s.cfg v] := by
      rw [push_eq_drop _ _ _ h, hfull, Nat.add_sub_cancel_left, ← List.drop_one,
        List.drop_append_eq_append_drop]
      simp [hfull, Nat.sub_eq_zero_of_le hcap, List.drop_one]
    unfold window
    rw [addValue_cfg, hv, hpush]
    have hlen' : (s.values.tail ++ [levelOf s.cfg v]).length = capacity s.cfg := by
      rw [List.length_append, List.length_tail]
      simp only [List.length_singleton]
      omega
    rw [hlen', Nat.sub_self, List.replicate_zero, List.nil_append, hfull, Nat.sub_self,
      List.replicate_zero, List.nil_append, List.map_append]
    rw [← List.map_tail]
    simp
  · have hlt : s.values.length < capacity s.cfg := lt_of_le_of_ne h hfull
    have hpush : push (capacity s.cfg) s.values (levelOf s.cfg v) =
        s.values ++ [levelOf s.cfg v] := by
      rw [push_eq_drop _ _ _ h, Nat.sub_eq_zero_of_le (by omega), List.drop_zero]
    unfold window
    rw [addValue_cfg, hv, hpush]
    have hrep : capacity s.cfg - s.values.length =
        (capacity s.cfg - (s.values ++ [levelOf s.cfg v]).length) + 1 := by
      simp only [List.length_append, List.length_singleton]
      omega
    rw [hrep, List.replicate_succ, List.map_append]
    simp

/-! ### Grid shape lemmas -/

theorem graph_length (s : Stream) : (graph s).length = s.cfg.height := by
  simp [graph]

theorem rowChars_length (s : Stream) (j : ℕ) : (rowChars s j).length = s.cfg.width := by
  unfold rowChars
  cases s.cfg.mode <;> simp

theorem mem_graph_length (s : Stream) (row : String) (hrow : row ∈ graph s) :
    row.length = s.cfg.width := by
  unfold graph at hrow
  obtain ⟨j, _, rfl⟩ := List.mem_map.mp hrow
  show (rowChars s j).length = s.cfg.width
  exact rowChars_length s j

theorem getD_map_range {α : Type} (f : ℕ → α) (w i : ℕ) (hi : i < w) (d : α) :
    ((List.range w).map f).getD i d = f i := by
  rw [List.getD_eq_getElem?_getD, List.getElem?_map, List.getElem?_range hi]
  rfl

theorem charAt_graph (s : Stream) (j i : ℕ)
    (hj : j < s.cfg.height) :
    charAt (graph s) j i = (rowChars s j).getD i ' ' := by
  unfold charAt graph
  rw [getD_map_range _ _ _ hj]

theorem charAt_graph_braille (s : Stream) (j i : ℕ)
    (hmode : s.cfg.mode = Mode.braille)
    (hj : j < s.cfg.height) (hi : i < s.cfg.width) :
    charAt (graph s) j i =
      brailleGlyph s.cfg.flipud
        (cellLevels s (if s.cfg.flipud then j else s.cfg.height - 1 - j) i).1
        (cellLevels s (if s.cfg.flipud then j else s.cfg.height - 1 - j) i).2 := by
  rw [charAt_graph s j i hj]
  unfold rowChars
  rw [hmode]
  exact getD_map_range _ _ _ hi _

theorem charAt_graph_block (s : Stream) (j i : ℕ)
    (hmode : s.cfg.mode = Mode.block)
    (hj : j < s.cfg.height) (hi : i < s.cfg.width) :
    charAt (graph s) j i =
      blockGlyph (subLevel 8 (s.cfg.height - 1 - j) ((window s).getD i none)) := by
  rw [charAt_graph s j i hj]
  unfold rowChars
  rw [hmode]
  exact getD_map_range _ _ _ hi _

/-! ### Quantizer lemmas -/

theorem ceilDiv_eq_ceil (p q : ℤ) (hq : 0 < q) :
    ceilDiv p q = ⌈(p : ℚ) / (q : ℚ)⌉ := by
  have hn : ((q.toNat : ℕ) : ℤ) = q := Int.toNat_of_nonneg hq.le
  have hcast : ((q.toNat : ℕ) : ℚ) = ((q : ℤ) : ℚ) := by
    rw [← Int.cast_natCast (R := ℚ), hn]
  have h1 : ⌈(p : ℚ) / (q : ℚ)⌉ = -⌊-((p : ℚ) / (q : ℚ))⌋ := by
    rw [Int.floor_neg, neg_neg]
  have h2 : -((p : ℚ) / (q : ℚ)) = (((-p : ℤ) : ℚ)) / ((q.toNat : ℕ) : ℚ) := by
    rw [hcast]
    push_cast
    ring
  rw [h1, h2, Rat.floor_intCast_div_natCast, hn]
  rfl

theorem num_eq_mul_den (x : ℚ) : (x.num : ℚ) = x * (x.den : ℚ) := by
  have hden : ((x.den : ℚ)) ≠ 0 := Nat.cast_ne_zero.mpr x.den_ne_zero
  exact ((div_eq_iff hden).mp (Rat.num_div_den x))

theorem quantize_eq_specLevel (c : Config) (h : c.vmin < c.vmax) (x : ℚ) :
    quantize c x = specLevel c x := by
  have hsub : (0 : ℚ) < c.vmax - c.vmin := sub_pos.mpr h
  have hsubne : (c.vmax - c.vmin) ≠ 0 := hsub.ne'
  have hdy : (((clampQ c.vmin c.vmax x).den : ℚ)) ≠ 0 :=
    Nat.cast_ne_zero.mpr (clampQ c.vmin c.vmax x).den_ne_zero
  have hdmin : ((c.vmin.den : ℚ)) ≠ 0 := Nat.cast_ne_zero.mpr c.vmin.den_ne_zero
  have hdmax : ((c.vmax.den : ℚ)) ≠ 0 := Nat.cast_ne_zero.mpr c.vmax.den_ne_zero
  have hbN : ((c.vmax.num * c.vmin.den - c.vmin.num * c.vmax.den : ℤ) : ℚ) =
      (c.vmax - c.vmin) * ((c.vmax.den : ℚ) * (c.vmin.den : ℚ)) := by
    push_cast
    rw [num_eq_mul_den c.vmax, num_eq_mul_den c.vmin]
    ring
  have hbNpos : (0 : ℤ) < c.vmax.num * c.vmin.den - c.vmin.num * c.vmax.den := by
    have hrat : (0 : ℚ) <
        ((c.vmax.num * c.vmin.den - c.vmin.num * c.vmax.den : ℤ) : ℚ) := by
      rw [hbN]
      apply mul_pos hsub
      apply mul_pos
      · exact lt_of_le_of_ne (Nat.cast_nonneg _) (Ne.symm hdmax)
      · exact lt_of_le_of_ne (Nat.cast_nonneg _) (Ne.symm hdmin)
    exact_mod_cast hrat
  have hQpos : (0 : ℤ) <
      (((clampQ c.vmin c.vmax x).den : ℤ) * (c.vmin.den : ℤ)) *
        (c.vmax.num * c.vmin.den - c.vmin.num * c.vmax.den) := by
    apply mul_pos _ hbNpos
    apply mul_pos
    · exact_mod_cast (clampQ c.vmin c.vmax x).pos
    · exact_mod_cast c.vmin.pos
  have key :
      ((((clampQ c.vmin c.vmax x).num * c.vmin.den -
          c.vmin.num * (clampQ c.vmin c.vmax x).den) *
          (maxLevel c : ℤ) * ((c.vmax.den : ℤ) * (c.vmin.den : ℤ)) : ℤ) : ℚ) /
        (((((clampQ c.vmin c.vmax x).den : ℤ) * (c.vmin.den : ℤ)) *
          (c.vmax.num * c.vmin.den - c.vmin.num * c.vmax.den) : ℤ) : ℚ) =
      (clampQ c.vmin c.vmax x - c.vmin) / (c.vmax - c.vmin) * (maxLevel c : ℚ) := by
    have e : ((((clampQ c.vmin c.vmax x).num * c.vmin.den -
          c.vmin.num * (clampQ c.vmin c.vmax x).den) *
          (maxLevel c : ℤ) * ((c.vmax.den : ℤ) * (c.vmin.den : ℤ)) : ℤ) : ℚ) =
        ((clampQ c.vmin c.vmax x - c.vmin) *
          (((clampQ c.vmin c.vmax x).den : ℚ) * (c.vmin.den : ℚ))) *
          (maxLevel c : ℚ) * ((c.vmax.den : ℚ) * (c.vmin.den : ℚ)) := by
      push_cast
      rw [num_eq_mul_den (clampQ c.vmin c.vmax x), num_eq_mul_den c.vmin]
      ring
    have f : (((((clampQ c.vmin c.vmax x).den : ℤ) * (c.vmin.den : ℤ)) *
          (c.vmax.num * c.vmin.den - c.vmin.num * c.vmax.den) : ℤ) : ℚ) =
        (((clampQ c.vmin c.vmax x).den : ℚ) * (c.vmin.den : ℚ)) *
          ((c.vmax - c.vmin) * ((c.vmax.den : ℚ) * (c.vmin.den : ℚ))) := by
      push_cast
      rw [num_eq_mul_den c.vmax, num_eq_mul_den c.vmin]
      ring
    rw [e, f]
    field_simp
    ring
  simp only [quantize, specLevel]
  rw [ceilDiv_eq_ceil _ _ hQpos, key]

theorem clampQ_of_le (lo hi x : ℚ) (hx : x ≤ lo) : clampQ lo hi x = lo := by
  unfold clampQ
  rw [max_eq_left (le_trans (min_le_right hi x) hx)]

theorem clampQ_of_ge (lo hi x : ℚ) (hx : hi ≤ x) (hlh : lo ≤ hi) :
    clampQ lo hi x = hi := by
  unfold clampQ
  rw [min_eq_left hx, max_eq_right hlh]

theorem clampQ_le_hi (lo hi x : ℚ) (hlh : lo ≤ hi) : clampQ lo hi x ≤ hi :=
  max_le hlh (min_le_left hi x)

theorem lo_le_clampQ (lo hi x : ℚ) : lo ≤ clampQ lo hi x := le_max_left lo _

theorem lo_lt_clampQ (lo hi x : ℚ) (hx : lo < x) (hlh : lo < hi) :
    lo < clampQ lo hi x :=
  lt_of_lt_of_le (lt_min hlh hx) (le_max_right lo _)

theorem resolutionPerRow_pos (m : Mode) : 0 < resolutionPerRow m := by
  cases m <;> norm_num [resolutionPerRow]

theorem maxLevel_pos (c : Config) (hh : 0 < c.height) : 0 < maxLevel c :=
  Nat.mul_pos (resolutionPerRow_pos c.mode) hh

theorem specLevel_of_le (c : Config) (x : ℚ) (hx : x ≤ c.vmin) :
    specLevel c x = 0 := by
  unfold specLevel
  rw [clampQ_of_le _ _ _ hx, sub_self, zero_div, zero_mul, Int.ceil_zero]
  rfl

theorem specLevel_of_ge (c : Config) (x : ℚ) (hx : c.vmax ≤ x)
    (h : c.vmin < c.vmax) : specLevel c x = maxLevel c := by
  unfold specLevel
  rw [clampQ_of_ge _ _ _ hx h.le, div_self (sub_ne_zero.mpr h.ne'), one_mul,
    Int.ceil_natCast, Int.toNat_natCast]

theorem specLevel_le_maxLevel (c : Config) (h : c.vmin < c.vmax) (x : ℚ) :
    specLevel c x ≤ maxLevel c := by
  unfold specLevel
  have hsub : (0 : ℚ) < c.vmax - c.vmin := sub_pos.mpr h
  have hratio : (clampQ c.vmin c.vmax x - c.vmin) / (c.vmax - c.vmin) ≤ 1 := by
    rw [div_le_one hsub]
    exact sub_le_sub_right (clampQ_le_hi _ _ _ h.le) _
  have h1 : (clampQ c.vmin c.vmax x - c.vmin) / (c.vmax - c.vmin) *
      (maxLevel c : ℚ) ≤ (maxLevel c : ℚ) := by
    calc (clampQ c.vmin c.vmax x - c.vmin) / (c.vmax - c.vmin) * (maxLevel c : ℚ)
        ≤ 1 * (maxLevel c : ℚ) :=
          mul_le_mul_of_nonneg_right hratio (Nat.cast_nonneg _)
      _ = (maxLevel c : ℚ) := one_mul _
  have h2 : ⌈(clampQ c.vmin c.vmax x - c.vmin) / (c.vmax - c.vmin) *
      (maxLevel c : ℚ)⌉ ≤ (maxLevel c : ℤ) := by
    apply Int.ceil_le.mpr
    exact_mod_cast h1
  exact Int.toNat_le.mpr h2

theorem one_le_specLevel (c : Config) (h : c.vmin < c.vmax) (hh : 0 < c.height)
    (x : ℚ) (hx : c.vmin < x) : 1 ≤ specLevel c x := by
  unfold specLevel
  have hsub : (0 : ℚ) < c.vmax - c.vmin := sub_pos.mpr h
  have hpos : (0 : ℚ) < (clampQ c.vmin c.vmax x - c.vmin) / (c.vmax - c.vmin) *
      (maxLevel c : ℚ) := by
    apply mul_pos
    · exact div_pos (sub_pos.mpr (lo_lt_clampQ _ _ _ hx h)) hsub
    · exact_mod_cast maxLevel_pos c hh
  have h1 : 0 < ⌈(clampQ c.vmin c.vmax x - c.vmin) / (c.vmax - c.vmin) *
      (maxLevel c : ℚ)⌉ := Int.ceil_pos.mpr hpos
  omega

/-! ### Multi-row distribution -/

theorem subLevel_eq (res r L : ℕ) (hres : 0 < res) :
    subLevel res r (some L) =
      if r < L / res then res
      else if r = L / res then L % res
      else 0 := by
  have hdm : res * (L / res) + L % res = L := Nat.div_add_mod L res
  have hmlt : L % res < res := Nat.mod_lt _ hres
  simp only [subLevel]
  rcases Nat.lt_trichotomy r (L / res) with hlt | heq | hgt
  · rw [if_pos hlt]
    have h1 : res * r + res ≤ res * (L / res) := by
      have h2 := Nat.mul_le_mul_left res hlt
      rwa [Nat.mul_succ] at h2
    omega
  · rw [if_neg (by omega), if_pos heq, heq]
    omega
  · rw [if_neg (by omega), if_neg (by omega)]
    have h1 : res * (L / res) + res ≤ res * r := by
      have h2 := Nat.mul_le_mul_left res hgt
      rwa [Nat.mul_succ] at h2
    omega

/-! ### The newest stored level -/

theorem push_getLast (cap : ℕ) (buf : List ℕ) (x : ℕ) (hcap : 1 ≤ cap) :
    (push cap buf x).getLast? = some x := by
  unfold push
  by_cases hlt : cap < (buf ++ [x]).length
  · simp only [hlt, if_true]
    cases buf with
    | nil =>
        simp only [List.length_append, List.length_nil, List.length_singleton] at hlt
        omega
    | cons b bs =>
        simp only [List.cons_append, List.tail_cons]
        exact List.getLast?_concat _
  · simp only [hlt, if_false]
    exact List.getLast?_concat _

theorem addValue_getLast (s : Stream) (v : FVal) (hcap : 1 ≤ capacity s.cfg) :
    (addValue s v).values.getLast? = some (levelOf s.cfg v) :=
  push_getLast _ _ _ hcap

/-! ### Counting non-blank cells (block mode) -/

/-- The number of displayed rows on which a window slot shows a non-blank
block glyph. -/
def litRows (c : Config) (o : Option ℕ) : ℕ :=
  ((List.range c.height).map fun j =>
    if blockGlyph (subLevel 8 (c.height - 1 - j) o) = ' ' then 0 else 1).sum

theorem litRows_none (c : Config) : litRows c none = 0 := by
  unfold litRows
  have hz : ∀ j, (if blockGlyph (subLevel 8 (c.height - 1 - j) none) = ' '
      then 0 else 1) = 0 := by
    intro j
    simp [subLevel, blockGlyph]
  simp only [hz]
  simp

theorem sum_map_add_of_pointwise {α : Type} (J : List α) (f g u w : α → ℕ)
    (h : ∀ j ∈ J, f j + u j = g j + w j) :
    (J.map f).sum + (J.map u).sum = (J.map g).sum + (J.map w).sum := by
  induction J with
  | nil => rfl
  | cons a J ih =>
      simp only [List.map_cons, List.sum_cons]
      have ha := h a (List.mem_cons_self a J)
      have hJ := ih fun j hj => h j (List.mem_cons_of_mem a hj)
      omega

theorem rowChars_block_map (s : Stream) (hmode : s.cfg.mode = Mode.block)
    (hlen : s.values.length ≤ capacity s.cfg) (j : ℕ) :
    rowChars s j = (window s).map
      (fun o => blockGlyph (subLevel 8 (s.cfg.height - 1 - j) o)) := by
  unfold rowChars
  rw [hmode]
  have hww : (window s).length = s.cfg.width := by
    rw [window_length s hlen]
    unfold capacity
    rw [hmode]
  apply List.ext_getElem
  · simp [hww]
  · intro i h1 h2
    simp only [List.getElem_map, List.getElem_range]
    rw [List.getD_eq_getElem]

theorem nonBlankCount_eq_sum (s : Stream) :
    nonBlankCount s = ((List.range s.cfg.height).map fun j =>
      (rowChars s j).countP fun ch => ch ≠ ' ').sum := by
  unfold nonBlankCount graph
  rw [List.map_map]
  rfl

/-- Each `addValue` in block mode changes the number of non-blank grid
characters by exactly (lit rows of the new sample) − (lit rows of the
evicted leading slot). -/
theorem nonBlankCount_addValue_block (s : Stream) (v : FVal)
    (hmode : s.cfg.mode = Mode.block)
    (hw : 1 ≤ s.cfg.width)
    (hlen : s.values.length ≤ capacity s.cfg) :
    nonBlankCount (addValue s v) + litRows s.cfg ((window s).getD 0 none) =
      nonBlankCount s + litRows s.cfg (some (levelOf s.cfg v)) := by
  have hcap : 1 ≤ capacity s.cfg := by
    unfold capacity
    rw [hmode]
    exact hw
  have hwin : window (addValue s v) =
      (window s).tail ++ [some (levelOf s.cfg v)] :=
    window_addValue s v hcap hlen
  have hwl : (window s).length = capacity s.cfg := window_length s hlen
  have hne : window s ≠ [] := by
    intro hnil
    rw [hnil] at hwl
    simp at hwl
    omega
  obtain ⟨o, rest, hcons⟩ : ∃ o rest, window s = o :: rest :=
    ⟨(window s).head hne, (window s).tail, (List.head_cons_tail _ hne).symm⟩
  have hget0 : (window s).getD 0 none = o := by
    rw [hcons]
    rfl
  have hcfg' : (addValue s v).cfg = s.cfg := rfl
  rw [nonBlankCount_eq_sum, nonBlankCount_eq_sum, hcfg', hget0]
  simp only [litRows]
  apply sum_map_add_of_pointwise
  intro j hj
  have hrow : rowChars s j = (window s).map
      (fun q => blockGlyph (subLevel 8 (s.cfg.height - 1 - j) q)) :=
    rowChars_block_map s hmode hlen j
  have hrow' : rowChars (addValue s v) j = (window (addValue s v)).map
      (fun q => blockGlyph (subLevel 8 (s.cfg.height - 1 - j) q)) := by
    have hlen' : (addValue s v).values.length ≤ capacity (addValue s v).cfg := by
      rw [hcfg']
      have hp := push_length (capacity s.cfg) s.values (levelOf s.cfg v) hlen
      show (push (capacity s.cfg) s.values (levelOf s.cfg v)).length ≤ capacity s.cfg
      omega
    exact rowChars_block_map (addValue s v) hmode hlen' j
  rw [hrow, hrow', hwin, hcons]
  simp only [List.tail_cons, List.map_append, List.map_cons, List.map_nil,
    List.countP_append, List.countP_cons, List.countP_nil]
  by_cases ho : blockGlyph (subLevel 8 (s.cfg.height - 1 - j) o) = ' ' <;>
    by_cases hn : blockGlyph
      (subLevel 8 (s.cfg.height - 1 - j) (some (levelOf s.cfg v))) = ' ' <;>
    simp [ho, hn]

/-! ### Orientation independence of the breath of stored levels -/

theorem values_indep_flipud (w h : ℕ) (vmin vmax : ℚ) (vs : List FVal) :
    ∀ buf : List ℕ,
      (runAdds ⟨⟨w, h, vmin, vmax, true, Mode.braille⟩, buf⟩ vs).values =
        (runAdds ⟨⟨w, h, vmin, vmax, false, Mode.braille⟩, buf⟩ vs).values := by
  induction vs with
  | nil => intro buf; rfl
  | cons v vs ih =>
      intro buf
      exact ih (push (2 * w) buf
        (levelOf ⟨w, h, vmin, vmax, false, Mode.braille⟩ v))

/-! ### Window access on a full buffer -/

theorem window_getD_of_full (s : Stream) (k : ℕ)
    (hlen : s.values.length = capacity s.cfg) (hk : k < capacity s.cfg) :
    (window s).getD k none = some (s.values.getD k 0) := by
  unfold window
  rw [hlen, Nat.sub_self, List.replicate_zero, List.nil_append,
    List.getD_eq_getElem?_getD, List.getElem?_map, List.getD_eq_getElem?_getD]
  have hk' : k < s.values.length := by omega
  rw [List.getElem?_eq_getElem hk']
  simp

theorem getD_drop (l : List ℕ) (m k : ℕ) :
    (l.drop m).getD k 0 = l.getD (m + k) 0 := by
  rw [List.getD_eq_getElem?_getD, List.getD_eq_getElem?_getD, List.getElem?_drop]

/-! ### Construction -/

theorem new_ok (w h : ℤ) (vmin vmax : ℚ) (f : Bool) (m : Mode) (s0 : Stream)
    (hok : new w h vmin vmax f m = Except.ok s0) :
    s0 = ⟨⟨w.toNat, h.toNat, vmin, vmax, f, m⟩, []⟩ ∧
      ¬(w ≤ 0 ∨ h ≤ 0 ∨ vmin ≥ vmax) := by
  unfold new at hok
  by_cases hc : w ≤ 0 ∨ h ≤ 0 ∨ vmin ≥ vmax
  · rw [if_pos hc] at hok
    exact absurd hok (by simp)
  · rw [if_neg hc] at hok
    exact ⟨(Except.ok.inj hok).symm, hc⟩

theorem new_isError_iff (w h : ℤ) (vmin vmax : ℚ) (f : Bool) (m : Mode) :
    (∃ e, new w h vmin vmax f m = Except.error e) ↔
      (w ≤ 0 ∨ h ≤ 0 ∨ vmin ≥ vmax) := by
  unfold new
  by_cases hc : w ≤ 0 ∨ h ≤ 0 ∨ vmin ≥ vmax
  · rw [if_pos hc]
    exact ⟨fun _ => hc, fun _ => ⟨ConfigurationError.invalid, rfl⟩⟩
  · rw [if_neg hc]
    constructor
    · rintro ⟨e, he⟩
      exact absurd he (by simp)
    · intro hcc
      exact absurd hcc hc

theorem capacity_pos (c : Config) (hw : 0 < c.width) : 0 < capacity c := by
  cases hm : c.mode <;> simp only [capacity, hm] <;> omega

/-! ### Regression fixtures: the exact grids asserted by
`src/tests/test_streams.py` -/

theorem fixture_braille_1 :
    graph (runAdds (brailleStream 3 1 0 100 false)
      [FVal.finite 10]) = ["  ⢀"] := by decide

theorem fixture_braille_2 :
    graph (runAdds (brailleStream 3 1 0 100 false)
      [FVal.finite 10, FVal.finite 30]) = ["  ⣠"] := by decide

theorem fixture_braille_3 :
    graph (runAdds (brailleStream 3 1 0 100 false)
      [FVal.finite 10, FVal.finite 30, FVal.finite 60]) = [" ⢀⣴"] := by decide

theorem fixture_braille_4 :
    graph (runAdds (brailleStream 3 1 0 100 false)
      [FVal.finite 10, FVal.finite 30, FVal.finite 60, FVal.finite 90]) =
      [" ⣠⣾"] := by decide

theorem fixture_braille_upside_down :
    (graph (runAdds (brailleStream 3 1 0 100 true) [FVal.finite 10]) = ["  ⠈"]) ∧
    (graph (runAdds (brailleStream 3 1 0 100 true)
      [FVal.finite 10, FVal.finite 30]) = ["  ⠙"]) ∧
    (graph (runAdds (brailleStream 3 1 0 100 true)
      [FVal.finite 10, FVal.finite 30, FVal.finite 60]) = [" ⠈⠻"]) ∧
    (graph (runAdds (brailleStream 3 1 0 100 true)
      [FVal.finite 10, FVal.finite 30, FVal.finite 60, FVal.finite 90]) =
      [" ⠙⢿"]) := by decide

theorem fixture_braille_tall :
    (graph (runAdds (brailleStream 3 4 0 100 false) [FVal.finite 43]) =
      ["   ", "   ", "  ⢰", "  ⢸"]) ∧
    (graph (runAdds (brailleStream 3 4 0 100 false)
      [FVal.finite 43, FVal.finite 10]) = ["   ", "   ", "  ⡆", "  ⣧"]) ∧
    (graph (runAdds (brailleStream 3 4 0 100 false)
      [FVal.finite 43, FVal.finite 10, FVal.finite 100]) =
      ["  ⢸", "  ⢸", " ⢰⢸", " ⢸⣼"]) ∧
    (graph (runAdds (brailleStream 3 4 0 100 false)
      [FVal.finite 43, FVal.finite 10, FVal.finite 100, FVal.finite 76]) =
      ["  ⣇", "  ⣿", " ⡆⣿", " ⣧⣿"]) ∧
    (graph (runAdds (brailleStream 3 4 0 100 false)
      [FVal.finite 43, FVal.finite 10, FVal.finite 100, FVal.finite 76,
        FVal.finite 0]) = [" ⢸⡀", " ⢸⡇", "⢰⢸⡇", "⢸⣼⡇"]) := by decide

theorem fixture_blockchar :
    (graph (runAdds (blockStream 5 1 0 100) [FVal.finite 10]) = ["    ▁"]) ∧
    (graph (runAdds (blockStream 5 1 0 100)
      [FVal.finite 10, FVal.finite 30]) = ["   ▁▃"]) ∧
    (graph (runAdds (blockStream 5 1 0 100)
      [FVal.finite 10, FVal.finite 30, FVal.finite 60]) = ["  ▁▃▅"]) ∧
    (graph (runAdds (blockStream 5 1 0 100)
      [FVal.finite 10, FVal.finite 30, FVal.finite 60, FVal.finite 100]) =
      [" ▁▃▅█"]) ∧
    (graph (runAdds (blockStream 5 1 0 100)
      [FVal.finite 10, FVal.finite 30, FVal.finite 60, FVal.finite 100,
        FVal.finite 0]) = ["▁▃▅█ "]) := by decide

theorem fixture_blockchar_tall :
    (graph (runAdds (blockStream 3 4 0 100) [FVal.finite 10]) =
      ["   ", "   ", "   ", "  ▄"]) ∧
    (graph (runAdds (blockStream 3 4 0 100)
      [FVal.finite 10, FVal.finite 30]) = ["   ", "   ", "  ▂", " ▄█"]) ∧
    (graph (runAdds (blockStream 3 4 0 100)
      [FVal.finite 10, FVal.finite 30, FVal.finite 60]) =
      ["   ", "  ▄", " ▂█", "▄██"]) ∧
    (graph (runAdds (blockStream 3 4 0 100)
      [FVal.finite 10, FVal.finite 30, FVal.finite 60, FVal.finite 100]) =
      ["  █", " ▄█", "▂██", "███"]) ∧
    (graph (runAdds (blockStream 3 4 0 100)
      [FVal.finite 10, FVal.finite 30, FVal.finite 60, FVal.finite 100,
        FVal.finite 0]) = [" █ ", "▄█ ", "██ ", "██ "]) := by decide

/-! ### Claim theorems -/

/-- Claim C1: the quantizer uses ceiling, not rounding.  The level stored
by `addValue` equals `ceil((clamp(value, vmin, vmax) − vmin) / (vmax − vmin)
× maxLevel)`; consequently any value strictly above `vmin` yields level ≥ 1,
`value = vmax` yields exactly `maxLevel`, `value = vmin` yields level 0, and
out-of-range values are clamped (mapped to the bound's level) rather than
rejected. -/
theorem claim_C1_ceiling_quantizer (s : Stream) (x : ℚ)
    (h : s.cfg.vmin < s.cfg.vmax) (hh : 0 < s.cfg.height) (hw : 0 < s.cfg.width) :
    (addValue s (FVal.finite x)).values.getLast? = some (specLevel s.cfg x) ∧
    specLevel s.cfg x =
      (⌈(clampQ s.cfg.vmin s.cfg.vmax x - s.cfg.vmin) /
        (s.cfg.vmax - s.cfg.vmin) * (maxLevel s.cfg : ℚ)⌉).toNat ∧
    (s.cfg.vmin < x → 1 ≤ specLevel s.cfg x) ∧
    (x = s.cfg.vmax → specLevel s.cfg x = maxLevel s.cfg) ∧
    (x = s.cfg.vmin → specLevel s.cfg x = 0) ∧
    (x ≤ s.cfg.vmin → specLevel s.cfg x = 0) ∧
    (s.cfg.vmax ≤ x → specLevel s.cfg x = maxLevel s.cfg) := by
  refine ⟨?_, rfl, ?_, ?_, ?_, ?_, ?_⟩
  · rw [addValue_getLast s (FVal.finite x) (capacity_pos s.cfg hw)]
    exact congrArg some (quantize_eq_specLevel s.cfg h x)
  · exact fun hx => one_le_specLevel s.cfg h hh x hx
  · rintro rfl
    exact specLevel_of_ge s.cfg _ le_rfl h
  · rintro rfl
    exact specLevel_of_le s.cfg _ le_rfl
  · exact fun hx => specLevel_of_le s.cfg x hx
  · exact fun hx => specLevel_of_ge s.cfg x hx h

theorem claim_C1_ceiling_quantizer_witness :
    ((0 : ℚ) < 100 ∧ 0 < 1 ∧ 0 < 3) ∧
    (addValue (brailleStream 3 1 0 100 false) (FVal.finite 10)).values.getLast? =
      some (specLevel (brailleStream 3 1 0 100 false).cfg 10) :=
  ⟨⟨by decide, by decide, by decide⟩,
    (claim_C1_ceiling_quantizer (brailleStream 3 1 0 100 false) 10
      (by decide) (by decide) (by decide)).1⟩

/-- Claim C2: for every sequence of `addValue` calls on a successfully
constructed stream, `graph` returns exactly `height` strings, each of
length exactly `width`, and the geometry never changes after
construction. -/
theorem claim_C2_geometry (w h : ℤ) (vmin vmax : ℚ) (f : Bool) (m : Mode)
    (s0 : Stream) (hok : new w h vmin vmax f m = Except.ok s0) (vs : List FVal) :
    (runAdds s0 vs).cfg = s0.cfg ∧
    s0.cfg.width = w.toNat ∧ s0.cfg.height = h.toNat ∧
    (graph (runAdds s0 vs)).length = s0.cfg.height ∧
    ∀ row ∈ graph (runAdds s0 vs), row.length = s0.cfg.width := by
  obtain ⟨hs0, hbad⟩ := new_ok w h vmin vmax f m s0 hok
  refine ⟨runAdds_cfg vs s0, by rw [hs0], by rw [hs0], ?_, ?_⟩
  · rw [graph_length, runAdds_cfg]
  · intro row hrow
    rw [mem_graph_length (runAdds s0 vs) row hrow, runAdds_cfg]

theorem claim_C2_geometry_witness :
    new 3 1 0 100 false Mode.braille = Except.ok (brailleStream 3 1 0 100 false) ∧
    (graph (runAdds (brailleStream 3 1 0 100 false) [FVal.finite 10])).length = 1 :=
  ⟨by rfl,
    (claim_C2_geometry 3 1 0 100 false Mode.braille (brailleStream 3 1 0 100 false)
      (by rfl) [FVal.finite 10]).2.2.2.1⟩

/-- Claim C8: for every float64 input, including NaN and ±infinity,
`addValue` succeeds and never raises: non-finite values are clamped to the
nearest range bound before quantization (the model maps them to the bound's
level), every produced level stays within `[0, maxLevel]`, and `addValue`
is a total function preserving the stream invariants. -/
theorem claim_C8_addValue_total (s : Stream)
    (h : s.cfg.vmin < s.cfg.vmax) :
    levelOf s.cfg FVal.nan = levelOf s.cfg (FVal.finite s.cfg.vmin) ∧
    levelOf s.cfg FVal.posInf = levelOf s.cfg (FVal.finite s.cfg.vmax) ∧
    levelOf s.cfg FVal.negInf = levelOf s.cfg (FVal.finite s.cfg.vmin) ∧
    (∀ v : FVal, levelOf s.cfg v ≤ maxLevel s.cfg) ∧
    (∀ v : FVal, (addValue s v).cfg = s.cfg ∧
      (s.values.length ≤ capacity s.cfg →
        (addValue s v).values.length ≤ capacity s.cfg)) := by
  refine ⟨rfl, rfl, rfl, ?_, ?_⟩
  · intro v
    show quantize s.cfg (toFinite s.cfg v) ≤ maxLevel s.cfg
    rw [quantize_eq_specLevel s.cfg h]
    exact specLevel_le_maxLevel s.cfg h _
  · intro v
    refine ⟨rfl, fun hlen => ?_⟩
    show (push (capacity s.cfg) s.values (levelOf s.cfg v)).length ≤ capacity s.cfg
    rw [push_length _ _ _ hlen]
    omega

theorem claim_C8_addValue_total_witness :
    ((0 : ℚ) < 100) ∧
    levelOf (brailleStream 3 1 0 100 false).cfg FVal.nan =
      levelOf (brailleStream 3 1 0 100 false).cfg
        (FVal.finite (brailleStream 3 1 0 100 false).cfg.vmin) :=
  ⟨by decide,
    (claim_C8_addValue_total (brailleStream 3 1 0 100 false) (by decide)).1⟩

/-- Claim C10: a sample equal to `vmin` quantizes to level 0 and renders as
a glyph indistinguishable from an unpopulated warming cell: `subLevel`
treats a stored level 0 exactly like an unpopulated slot, both encoders map
it to the space character, and after any ingestion history `addValue(vmin)`
puts a blank character in the newest (block-mode) column — so a blank in
`graph()` does not imply that no sample occupies that position. -/
theorem claim_C10_vmin_blank (s : Stream)
    (h : s.cfg.vmin < s.cfg.vmax) (hmode : s.cfg.mode = Mode.block)
    (hw : 0 < s.cfg.width)
    (hlen : s.values.length ≤ capacity s.cfg) :
    levelOf s.cfg (FVal.finite s.cfg.vmin) = 0 ∧
    (∀ res r, subLevel res r (some 0) = subLevel res r none) ∧
    (∀ f : Bool, brailleGlyph f 0 0 = ' ') ∧
    blockGlyph 0 = ' ' ∧
    (∀ j, j < s.cfg.height →
      charAt (graph (addValue s (FVal.finite s.cfg.vmin))) j
        (s.cfg.width - 1) = ' ') := by
  have hcap : 0 < capacity s.cfg := capacity_pos s.cfg hw
  have hlvl : levelOf s.cfg (FVal.finite s.cfg.vmin) = 0 := by
    show quantize s.cfg s.cfg.vmin = 0
    rw [quantize_eq_specLevel s.cfg h]
    exact specLevel_of_le s.cfg _ le_rfl
  refine ⟨hlvl, ?_, ?_, rfl, ?_⟩
  · intro res r
    simp [subLevel]
  · intro f
    simp [brailleGlyph]
  · intro j hj
    have hmode' : (addValue s (FVal.finite s.cfg.vmin)).cfg.mode = Mode.block :=
      hmode
    have hj' : j < (addValue s (FVal.finite s.cfg.vmin)).cfg.height := hj
    have hi' : s.cfg.width - 1 < (addValue s (FVal.finite s.cfg.vmin)).cfg.width := by
      show s.cfg.width - 1 < s.cfg.width
      omega
    rw [charAt_graph_block _ _ _ hmode' hj' hi']
    have hwin := window_addValue s (FVal.finite s.cfg.vmin) hcap hlen
    have hwl : (window s).length = capacity s.cfg := window_length s hlen
    have hcapw : capacity s.cfg = s.cfg.width := by
      simp only [capacity, hmode]
    have htl : (window s).tail.length = s.cfg.width - 1 := by
      rw [List.length_tail, hwl, hcapw]
    have hgd : (window (addValue s (FVal.finite s.cfg.vmin))).getD
        (s.cfg.width - 1) none = some (levelOf s.cfg (FVal.finite s.cfg.vmin)) := by
      rw [hwin, List.getD_eq_getElem?_getD,
        List.getElem?_append_right (by omega), htl]
      simp
    rw [hgd, hlvl]
    simp [subLevel, blockGlyph]

theorem claim_C10_vmin_blank_witness :
    ((0 : ℚ) < 100 ∧ (0 : ℕ) < 5 ∧
      (blockStream 5 1 0 100).values.length ≤ capacity (blockStream 5 1 0 100).cfg) ∧
    charAt (graph (addValue (blockStream 5 1 0 100) (FVal.finite 0))) 0 4 = ' ' :=
  ⟨⟨by decide, by decide, by decide⟩,
    (claim_C10_vmin_blank (blockStream 5 1 0 100) (by decide) rfl (by decide)
      (by decide)).2.2.2.2 0 (by decide)⟩

/-- Claim C4: when `height > 1`, a sample's total level `L` is distributed
across character rows bottom-up — `subLevel` gives row `r` (counted from
the bottom) the full resolution if `r` lies strictly below the row
`L / res` holding the remainder, the remainder `L % res` on that row, and
0 above it — and the same `subLevel` distribution feeds both the braille
encoder (resolution 4) and the block encoder (resolution 8). -/
theorem claim_C4_multirow (res r L : ℕ) (hres : 0 < res) :
    (subLevel res r (some L) =
      if r < L / res then res
      else if r = L / res then L % res
      else 0) ∧
    (∀ (s : Stream) (j i : ℕ), s.cfg.mode = Mode.braille →
      j < s.cfg.height → i < s.cfg.width →
      charAt (graph s) j i =
        brailleGlyph s.cfg.flipud
          (subLevel 4 (if s.cfg.flipud then j else s.cfg.height - 1 - j)
            ((window s).getD (2 * i) none))
          (subLevel 4 (if s.cfg.flipud then j else s.cfg.height - 1 - j)
            ((window s).getD (2 * i + 1) none))) ∧
    (∀ (s : Stream) (j i : ℕ), s.cfg.mode = Mode.block →
      j < s.cfg.height → i < s.cfg.width →
      charAt (graph s) j i =
        blockGlyph (subLevel 8 (s.cfg.height - 1 - j) ((window s).getD i none))) := by
  refine ⟨subLevel_eq res r L hres, ?_, ?_⟩
  · intro s j i hm hj hi
    exact charAt_graph_braille s j i hm hj hi
  · intro s j i hm hj hi
    exact charAt_graph_block s j i hm hj hi

theorem claim_C4_multirow_witness :
    (0 < 4 ∧ 0 < 8) ∧
    (subLevel 4 1 (some 7) =
      if 1 < 7 / 4 then 4 else if 1 = 7 / 4 then 7 % 4 else 0) ∧
    (subLevel 8 0 (some 10) =
      if 0 < 10 / 8 then 8 else if 0 = 10 / 8 then 10 % 8 else 0) :=
  ⟨⟨by decide, by decide⟩,
    (claim_C4_multirow 4 1 7 (by decide)).1,
    (claim_C4_multirow 8 0 10 (by decide)).1⟩

/-- Claim C9, counterexample: in the §8 block fixture
(`BlockCharStream(5, 1, 0, 100)` fed `10, 30, 60, 100, 0`) the buffer has
just reached its capacity of 5, yet the grid holds only 4 non-blank cells —
the final `0`-sample cell is blank — refuting "after the buffer is full the
non-blank cell count remains equal to capacity". -/
theorem claim_C9_counterexample :
    (runAdds (blockStream 5 1 0 100)
      [FVal.finite 10, FVal.finite 30, FVal.finite 60, FVal.finite 100,
        FVal.finite 0]).values.length =
      capacity (blockStream 5 1 0 100).cfg ∧
    capacity (blockStream 5 1 0 100).cfg = 5 ∧
    nonBlankCount (runAdds (blockStream 5 1 0 100)
      [FVal.finite 10, FVal.finite 30, FVal.finite 60, FVal.finite 100,
        FVal.finite 0]) = 4 := by decide

/-- Claim C9, amended: in block mode each `addValue` changes the non-blank
cell count by exactly (lit rows of the new sample) − (lit rows of the
evicted leading slot); while the buffer is below capacity the evicted slot
is unpopulated, so the count never decreases; once full, the count reflects
the window's non-zero levels and can be below capacity (it is not pinned to
capacity, as the counterexample shows). -/
theorem claim_C9_amended (s : Stream) (v : FVal)
    (hmode : s.cfg.mode = Mode.block) (hw : 1 ≤ s.cfg.width)
    (hlen : s.values.length ≤ capacity s.cfg) :
    nonBlankCount (addValue s v) + litRows s.cfg ((window s).getD 0 none) =
      nonBlankCount s + litRows s.cfg (some (levelOf s.cfg v)) ∧
    (s.values.length < capacity s.cfg →
      nonBlankCount s ≤ nonBlankCount (addValue s v)) := by
  have hmain := nonBlankCount_addValue_block s v hmode hw hlen
  refine ⟨hmain, fun hwarm => ?_⟩
  have hpad : (window s).getD 0 none = none := window_getD_pad s 0 (by omega)
  rw [hpad, litRows_none] at hmain
  omega

theorem claim_C9_amended_witness :
    ((blockStream 5 1 0 100).cfg.mode = Mode.block ∧
      1 ≤ (blockStream 5 1 0 100).cfg.width ∧
      (blockStream 5 1 0 100).values.length ≤ capacity (blockStream 5 1 0 100).cfg ∧
      (blockStream 5 1 0 100).values.length < capacity (blockStream 5 1 0 100).cfg) ∧
    nonBlankCount (blockStream 5 1 0 100) ≤
      nonBlankCount (addValue (blockStream 5 1 0 100) (FVal.finite 10)) :=
  ⟨⟨rfl, by decide, by decide, by decide⟩,
    (claim_C9_amended (blockStream 5 1 0 100) (FVal.finite 10) rfl
      (by decide) (by decide)).2 (by decide)⟩

/-- Claim C3: the level buffer is a FIFO sliding window — its length never
exceeds capacity; its content is always exactly the most recent `capacity`
quantized samples; once full, each `addValue` evicts exactly the oldest
level; and cells all of whose window slots are unpopulated render as the
blank glyph (space) in both modes. -/
theorem claim_C3_fifo_window (w h : ℤ) (vmin vmax : ℚ) (f : Bool) (m : Mode)
    (s0 : Stream) (hok : new w h vmin vmax f m = Except.ok s0) (vs : List FVal) :
    (runAdds s0 vs).values.length ≤ capacity s0.cfg ∧
    (runAdds s0 vs).values =
      (vs.map (levelOf s0.cfg)).drop (vs.length - capacity s0.cfg) ∧
    (∀ v : FVal, (runAdds s0 vs).values.length = capacity s0.cfg →
      (addValue (runAdds s0 vs) v).values =
        (runAdds s0 vs).values.tail ++ [levelOf s0.cfg v]) ∧
    (s0.cfg.mode = Mode.block →
      ∀ j, j < s0.cfg.height →
      ∀ i, i < capacity s0.cfg - (runAdds s0 vs).values.length →
      charAt (graph (runAdds s0 vs)) j i = ' ') ∧
    (s0.cfg.mode = Mode.braille →
      ∀ j, j < s0.cfg.height →
      ∀ i, 2 * i + 1 < capacity s0.cfg - (runAdds s0 vs).values.length →
      charAt (graph (runAdds s0 vs)) j i = ' ') ∧
    (s0.cfg.mode = Mode.braille → capacity s0.cfg = 2 * s0.cfg.width) ∧
    (s0.cfg.mode = Mode.block → capacity s0.cfg = s0.cfg.width) := by
  obtain ⟨hs0, hbad⟩ := new_ok w h vmin vmax f m s0 hok
  have hwpos : 0 < s0.cfg.width := by
    rw [hs0]
    show 0 < w.toNat
    omega
  have hlen0 : s0.values.length ≤ capacity s0.cfg := by
    rw [hs0]
    exact Nat.zero_le _
  have hcfg : (runAdds s0 vs).cfg = s0.cfg := runAdds_cfg vs s0
  refine ⟨values_length_le vs s0 hlen0, ?_, ?_, ?_, ?_,
    fun hm => by simp only [capacity, hm], fun hm => by simp only [capacity, hm]⟩
  · rw [runAdds_values vs s0 hlen0, hs0]
    simp
  · intro v hfull
    have hstep : (addValue (runAdds s0 vs) v).values =
        push (capacity (runAdds s0 vs).cfg) (runAdds s0 vs).values
          (levelOf (runAdds s0 vs).cfg v) := rfl
    rw [hstep, hcfg, push_eq_drop _ _ _ (le_of_eq hfull)]
    have hone : (runAdds s0 vs).values.length + 1 - capacity s0.cfg = 1 := by
      omega
    rw [hone]
    cases hv : (runAdds s0 vs).values with
    | nil =>
        rw [hv] at hfull
        have hcap0 : 0 < capacity s0.cfg := capacity_pos s0.cfg hwpos
        simp at hfull
        omega
    | cons a as => rfl
  · intro hm j hj i hi
    have hm' : (runAdds s0 vs).cfg.mode = Mode.block := by rw [hcfg]; exact hm
    have hj' : j < (runAdds s0 vs).cfg.height := by rw [hcfg]; exact hj
    have hcapw : capacity s0.cfg = s0.cfg.width := by
      simp only [capacity, hm]
    have hi' : i < (runAdds s0 vs).cfg.width := by
      rw [hcfg]
      omega
    rw [charAt_graph_block _ _ _ hm' hj' hi']
    have hpad : (window (runAdds s0 vs)).getD i none = none := by
      apply window_getD_pad
      rw [hcfg]
      exact hi
    rw [hpad]
    simp [subLevel, blockGlyph]
  · intro hm j hj i hi
    have hm' : (runAdds s0 vs).cfg.mode = Mode.braille := by rw [hcfg]; exact hm
    have hj' : j < (runAdds s0 vs).cfg.height := by rw [hcfg]; exact hj
    have hcapw : capacity s0.cfg = 2 * s0.cfg.width := by
      simp only [capacity, hm]
    have hi' : i < (runAdds s0 vs).cfg.width := by
      rw [hcfg]
      omega
    rw [charAt_graph_braille _ _ _ hm' hj' hi']
    have hpad1 : (window (runAdds s0 vs)).getD (2 * i) none = none := by
      apply window_getD_pad
      rw [hcfg]
      omega
    have hpad2 : (window (runAdds s0 vs)).getD (2 * i + 1) none = none := by
      apply window_getD_pad
      rw [hcfg]
      omega
    simp only [cellLevels, hpad1, hpad2]
    simp [subLevel, brailleGlyph]

theorem claim_C3_fifo_window_witness :
    new 5 1 0 100 false Mode.block = Except.ok (blockStream 5 1 0 100) ∧
    (runAdds (blockStream 5 1 0 100) [FVal.finite 10]).values =
      ([FVal.finite 10].map (levelOf (blockStream 5 1 0 100).cfg)).drop
        ([FVal.finite 10].length - capacity (blockStream 5 1 0 100).cfg) :=
  ⟨by rfl,
    (claim_C3_fifo_window 5 1 0 100 false Mode.block (blockStream 5 1 0 100)
      (by rfl) [FVal.finite 10]).2.1⟩

/-- Claim C7: construction fails with `ConfigurationError` if and only if
`width ≤ 0 ∨ height ≤ 0 ∨ vmin ≥ vmax`; a failure is a plain error value of
that one construction (no other stream is involved), and once construction
succeeds the render path is total — `graph` always returns a well-formed
`height × width` grid and the buffer invariant holds, for every input
sequence. -/
theorem claim_C7_construction (w h : ℤ) (vmin vmax : ℚ) (f : Bool) (m : Mode) :
    ((∃ e, new w h vmin vmax f m = Except.error e) ↔
      (w ≤ 0 ∨ h ≤ 0 ∨ vmin ≥ vmax)) ∧
    (∀ s0, new w h vmin vmax f m = Except.ok s0 → ∀ vs : List FVal,
      (graph (runAdds s0 vs)).length = s0.cfg.height ∧
      (∀ row ∈ graph (runAdds s0 vs), row.length = s0.cfg.width) ∧
      (runAdds s0 vs).values.length ≤ capacity s0.cfg) := by
  refine ⟨new_isError_iff w h vmin vmax f m, ?_⟩
  intro s0 hok vs
  obtain ⟨hs0, hbad⟩ := new_ok w h vmin vmax f m s0 hok
  refine ⟨?_, ?_, ?_⟩
  · rw [graph_length, runAdds_cfg]
  · intro row hrow
    rw [mem_graph_length _ row hrow, runAdds_cfg]
  · apply values_length_le
    rw [hs0]
    exact Nat.zero_le _

theorem claim_C7_construction_witness :
    (∃ e, new 0 1 0 100 false Mode.braille = Except.error e) ∧
    (graph (runAdds (brailleStream 3 1 0 100 false) [FVal.nan])).length = 1 :=
  ⟨(claim_C7_construction 0 1 0 100 false Mode.braille).1.mpr
      (Or.inl (by decide)),
    ((claim_C7_construction 3 1 0 100 false Mode.braille).2
      (brailleStream 3 1 0 100 false) (by rfl) [FVal.nan]).1⟩

/-- Claim C5: `flipud` is a pure transform applied after quantization.
For an identical input sequence the flipped and unflipped streams hold
identical quantized levels (no re-quantization), every cell's sub-column
levels agree, and displayed row `j` of the flipped grid shows — with the
in-cell fill direction mirrored (`brailleGlyph true`) — exactly the logical
row whose bottom-up fill (`brailleGlyph false`) the unflipped grid shows at
displayed row `height − 1 − j`: row order reversed, fill mirrored, levels
unchanged. -/
theorem claim_C5_flipud_pure (w h : ℕ) (vmin vmax : ℚ) (vs : List FVal)
    (j i : ℕ) (hj : j < h) (hi : i < w) :
    (runAdds (brailleStream w h vmin vmax true) vs).values =
      (runAdds (brailleStream w h vmin vmax false) vs).values ∧
    cellLevels (runAdds (brailleStream w h vmin vmax true) vs) j i =
      cellLevels (runAdds (brailleStream w h vmin vmax false) vs) j i ∧
    charAt (graph (runAdds (brailleStream w h vmin vmax true) vs)) j i =
      brailleGlyph true
        (cellLevels (runAdds (brailleStream w h vmin vmax true) vs) j i).1
        (cellLevels (runAdds (brailleStream w h vmin vmax true) vs) j i).2 ∧
    charAt (graph (runAdds (brailleStream w h vmin vmax false) vs))
        (h - 1 - j) i =
      brailleGlyph false
        (cellLevels (runAdds (brailleStream w h vmin vmax false) vs) j i).1
        (cellLevels (runAdds (brailleStream w h vmin vmax false) vs) j i).2 := by
  have hv : (runAdds (brailleStream w h vmin vmax true) vs).values =
      (runAdds (brailleStream w h vmin vmax false) vs).values :=
    values_indep_flipud w h vmin vmax vs []
  have hcfgT : (runAdds (brailleStream w h vmin vmax true) vs).cfg =
      ⟨w, h, vmin, vmax, true, Mode.braille⟩ :=
    runAdds_cfg vs (brailleStream w h vmin vmax true)
  have hcfgF : (runAdds (brailleStream w h vmin vmax false) vs).cfg =
      ⟨w, h, vmin, vmax, false, Mode.braille⟩ :=
    runAdds_cfg vs (brailleStream w h vmin vmax false)
  have hwin : window (runAdds (brailleStream w h vmin vmax true) vs) =
      window (runAdds (brailleStream w h vmin vmax false) vs) := by
    unfold window
    rw [hcfgT, hcfgF, hv]
    rfl
  have hcell : ∀ r k,
      cellLevels (runAdds (brailleStream w h vmin vmax true) vs) r k =
        cellLevels (runAdds (brailleStream w h vmin vmax false) vs) r k := by
    intro r k
    unfold cellLevels
    rw [hwin]
  refine ⟨hv, hcell j i, ?_, ?_⟩
  · have hmodeT : (runAdds (brailleStream w h vmin vmax true) vs).cfg.mode =
        Mode.braille := by rw [hcfgT]
    have hjT : j < (runAdds (brailleStream w h vmin vmax true) vs).cfg.height := by
      rw [hcfgT]
      exact hj
    have hiT : i < (runAdds (brailleStream w h vmin vmax true) vs).cfg.width := by
      rw [hcfgT]
      exact hi
    have hc := charAt_graph_braille _ j i hmodeT hjT hiT
    rw [hcfgT] at hc
    simpa using hc
  · have hmodeF : (runAdds (brailleStream w h vmin vmax false) vs).cfg.mode =
        Mode.braille := by rw [hcfgF]
    have hjF : h - 1 - j <
        (runAdds (brailleStream w h vmin vmax false) vs).cfg.height := by
      rw [hcfgF]
      show h - 1 - j < h
      omega
    have hiF : i < (runAdds (brailleStream w h vmin vmax false) vs).cfg.width := by
      rw [hcfgF]
      exact hi
    have hc := charAt_graph_braille _ (h - 1 - j) i hmodeF hjF hiF
    rw [hcfgF] at hc
    have hrow : h - 1 - (h - 1 - j) = j := by omega
    simp only [Bool.false_eq_true, if_false] at hc
    rw [hrow] at hc
    exact hc

theorem claim_C5_flipud_pure_witness :
    (0 < 1 ∧ 2 < 3) ∧
    charAt (graph (runAdds (brailleStream 3 1 0 100 true)
      [FVal.finite 10, FVal.finite 30])) 0 2 =
      brailleGlyph true
        (cellLevels (runAdds (brailleStream 3 1 0 100 true)
          [FVal.finite 10, FVal.finite 30]) 0 2).1
        (cellLevels (runAdds (brailleStream 3 1 0 100 true)
          [FVal.finite 10, FVal.finite 30]) 0 2).2 :=
  ⟨⟨by decide, by decide⟩,
    (claim_C5_flipud_pure 3 1 0 100 [FVal.finite 10, FVal.finite 30] 0 2
      (by decide) (by decide)).2.2.1⟩

/-- Claim C6, counterexample: in the braille fixture
(`BrailleStream(3, 1, 0, 100)` fed `10, 30, 60, 90`, grid `" ⣠⣾"`) cell 1's
right sub-column holds level 2 while cell 2's left sub-column holds
level 3 — adjacent cells do not share their boundary sample. -/
theorem claim_C6_counterexample :
    (cellLevels (runAdds (brailleStream 3 1 0 100 false)
      [FVal.finite 10, FVal.finite 30, FVal.finite 60, FVal.finite 90]) 0 1).2 = 2 ∧
    (cellLevels (runAdds (brailleStream 3 1 0 100 false)
      [FVal.finite 10, FVal.finite 30, FVal.finite 60, FVal.finite 90]) 0 2).1 = 3 ∧
    (cellLevels (runAdds (brailleStream 3 1 0 100 false)
      [FVal.finite 10, FVal.finite 30, FVal.finite 60, FVal.finite 90]) 0 1).2 ≠
    (cellLevels (runAdds (brailleStream 3 1 0 100 false)
      [FVal.finite 10, FVal.finite 30, FVal.finite 60, FVal.finite 90]) 0 2).1 := by
  decide

/-- Claim C6, amended: adjacent braille cells hold disjoint consecutive
sample pairs rather than sharing a boundary sample.  With a full buffer
after `n ≥ 2w` inputs, cell `i` shows exactly the quantized levels of
inputs `n − 2w + 2i` (left sub-column) and `n − 2w + 2i + 1` (right
sub-column); hence cell `i`'s right sample is the input immediately
preceding cell `i+1`'s left sample. -/
theorem claim_C6_amended (w hh : ℕ) (vmin vmax : ℚ) (flip : Bool)
    (vs : List FVal) (hfull : 2 * w ≤ vs.length)
    (r i : ℕ) (hi : i < w) :
    cellLevels (runAdds (brailleStream w hh vmin vmax flip) vs) r i =
      (subLevel 4 r (some ((vs.map (levelOf
          (⟨w, hh, vmin, vmax, flip, Mode.braille⟩ : Config))).getD
          (vs.length - 2 * w + 2 * i) 0)),
       subLevel 4 r (some ((vs.map (levelOf
          (⟨w, hh, vmin, vmax, flip, Mode.braille⟩ : Config))).getD
          (vs.length - 2 * w + 2 * i + 1) 0))) := by
  have hlen0 : (brailleStream w hh vmin vmax flip).values.length ≤
      capacity (brailleStream w hh vmin vmax flip).cfg := Nat.zero_le _
  have h0 : (brailleStream w hh vmin vmax flip).values = [] := rfl
  have hcap : capacity (brailleStream w hh vmin vmax flip).cfg = 2 * w := rfl
  have hcfg : (runAdds (brailleStream w hh vmin vmax flip) vs).cfg =
      (brailleStream w hh vmin vmax flip).cfg :=
    runAdds_cfg vs (brailleStream w hh vmin vmax flip)
  have hlenfull : (runAdds (brailleStream w hh vmin vmax flip) vs).values.length =
      capacity (brailleStream w hh vmin vmax flip).cfg := by
    rw [runAdds_values_length vs _ hlen0, h0, hcap]
    simp only [List.length_nil, Nat.zero_add]
    omega
  have hvals : (runAdds (brailleStream w hh vmin vmax flip) vs).values =
      (vs.map (levelOf (brailleStream w hh vmin vmax flip).cfg)).drop
        (vs.length - 2 * w) := by
    rw [runAdds_values vs _ hlen0, h0, hcap]
    simp
  have hg : ∀ k, k < 2 * w →
      (window (runAdds (brailleStream w hh vmin vmax flip) vs)).getD k none =
        some ((vs.map (levelOf (brailleStream w hh vmin vmax flip).cfg)).getD
          (vs.length - 2 * w + k) 0) := by
    intro k hk
    rw [window_getD_of_full _ k (by rw [hcfg]; exact hlenfull)
      (by rw [hcfg, hcap]; exact hk)]
    congr 1
    rw [hvals]
    exact getD_drop _ _ _
  unfold cellLevels
  rw [hg (2 * i) (by omega), hg (2 * i + 1) (by omega)]
  rfl

theorem claim_C6_amended_witness :
    (2 * 3 ≤ 6 ∧ 1 < 3) ∧
    cellLevels (runAdds (brailleStream 3 1 0 100 false)
      [FVal.finite 10, FVal.finite 30, FVal.finite 60, FVal.finite 90,
        FVal.finite 10, FVal.finite 50]) 0 1 =
      (subLevel 4 0 (some (([FVal.finite 10, FVal.finite 30, FVal.finite 60,
          FVal.finite 90, FVal.finite 10, FVal.finite 50].map
          (levelOf (⟨3, 1, 0, 100, false, Mode.braille⟩ : Config))).getD
          (6 - 2 * 3 + 2 * 1) 0)),
       subLevel 4 0 (some (([FVal.finite 10, FVal.finite 30, FVal.finite 60,
          FVal.finite 90, FVal.finite 10, FVal.finite 50].map
          (levelOf (⟨3, 1, 0, 100, false, Mode.braille⟩ : Config))).getD
          (6 - 2 * 3 + 2 * 1 + 1) 0))) :=
  ⟨⟨by decide, by decide⟩,
    claim_C6_amended 3 1 0 100 false
      [FVal.finite 10, FVal.finite 30, FVal.finite 60, FVal.finite 90,
        FVal.finite 10, FVal.finite 50] (by decide) 0 1 (by decide)⟩

end Sot
